import Mathlib

/-!
Shallow embedding of the calculator component in
`src/components/calculator.tsx`.

The component keeps four React state cells (`display`, `previousValue`,
`operation`, `waitingForNewValue`) and mutates them in seven button
handlers.  The embedding turns that record into `CalcState` and each
handler into a pure function `CalcState → CalcState`.

JavaScript numbers are modelled by `JSNum`: an exact rational or the NaN
sentinel.  The model is exact where double arithmetic rounds, it never
overflows where doubles reach ±Infinity (overflow is reachable in the
program, e.g. by squaring a 155-digit operand or parsing a display of
309 or more digits), and it prints plain decimal text where `String`
would switch to exponent form.  Statements quantifying over all
reachable states are therefore scoped, where the difference matters, to
runs whose values stay inside the modelled range: see `inDoubleRange`,
`runInRange` and the amended claim C1.
-/

set_option allowUnsafeReducibility true in
attribute [semireducible] Rat.add Rat.mul Rat.inv Rat.sub Rat.ofScientific

namespace Calc

/-- Model of a JavaScript number: an exact rational or NaN.  The model
has no ±Infinity and no overflow: a double computation whose magnitude
reaches 2^1024 yields Infinity in the program but an ordinary large
rational here, so statements about all reachable states hold of the
program only on runs kept inside the modelled range (`runInRange`). -/
inductive JSNum where
  | num (q : ℚ)
  | nan
deriving DecidableEq

namespace JSNum

/-- JS `a + b` (NaN propagates through arithmetic). -/
def add : JSNum → JSNum → JSNum
  | num a, num b => num (a + b)
  | _, _ => nan

/-- JS `a - b`. -/
def sub : JSNum → JSNum → JSNum
  | num a, num b => num (a - b)
  | _, _ => nan

/-- JS `a * b`. -/
def mul : JSNum → JSNum → JSNum
  | num a, num b => num (a * b)
  | _, _ => nan

/-- JS `a / b`.  The zero-divisor case (±Infinity in JS) is guarded at
every call site of the source; the model maps it to NaN. -/
def div : JSNum → JSNum → JSNum
  | num a, num b => if b = 0 then nan else num (a / b)
  | _, _ => nan

/-- JS `isNaN(x)`. -/
def isNaN : JSNum → Bool
  | num _ => false
  | nan => true

/-- Whether `x` is an ordinary (finite) number. -/
def isFinite : JSNum → Bool
  | num _ => true
  | nan => false

end JSNum

/-- The four operator buttons.  The source's `Operation` type is one of
these or `null`, modelled as `Option Op`. -/
inductive Op where
  | add
  | sub
  | mul
  | div
deriving DecidableEq

/-- The character of a decimal digit value. -/
def digitChar (n : ℕ) : Char := Char.ofNat (48 + n)

/-- The characters of a list of decimal digit values. -/
def digitsStr (ds : List ℕ) : List Char := ds.map digitChar

/-- Greedily scan leading decimal digits, returning their values and the
unconsumed rest (the digit scanning inside JS `parseFloat`). -/
def takeDigits : List Char → List ℕ × List Char
  | [] => ([], [])
  | c :: rest =>
    if c.isDigit then
      let p := takeDigits rest
      ((c.toNat - 48) :: p.1, p.2)
    else ([], c :: rest)

/-- The value of a digit list read most-significant first. -/
def natOfDigits (ds : List ℕ) : ℕ := ds.foldl (fun a d => 10 * a + d) 0

/-- The fraction digits following the integer part: digits right after a
point, nothing otherwise. -/
def fracOf : List Char → List ℕ
  | c :: r => if c = '.' then (takeDigits r).1 else []
  | [] => []

/-- The unsigned part of JS `parseFloat`: integer digits, an optional
point with fraction digits, longest prefix; NaN when no digit at all is
consumed. -/
def parseBody (l : List Char) : JSNum :=
  let ip := takeDigits l
  let fp := fracOf ip.2
  if ip.1 = [] ∧ fp = [] then JSNum.nan
  else JSNum.num ((natOfDigits ip.1 : ℚ) + (natOfDigits fp : ℚ) / (10 : ℚ) ^ fp.length)

/-- Negation of a parsed value (NaN stays NaN). -/
def negJS : JSNum → JSNum
  | .num q => .num (-q)
  | .nan => .nan

/-- Model of JS `parseFloat`: optional sign, then `parseBody`.  The
model covers the sign, digits and point shapes that displays take while
values remain in the modelled range.  JS additionally accepts exponent
forms and the literal `Infinity`, which the program can display after
leaving that range (`String(x)` is exponent-form for `|x| ≥ 1e21`, and
overflow prints `Infinity`); on such inputs this model returns NaN
where JS would not, another reason range-sensitive statements carry the
`runInRange` guard. -/
def parseFloatChars (l : List Char) : JSNum :=
  match l with
  | c :: r =>
      if c = '-' then negJS (parseBody r)
      else if c = '+' then parseBody r
      else parseBody (c :: r)
  | [] => parseBody []

/-- JS `parseFloat(s)`. -/
def parseFloat (s : String) : JSNum := parseFloatChars s.data

/-- Little-endian base-10 digits of a natural number, with explicit fuel
so that the recursion is structural and kernel-evaluable. -/
def natDigitsAux : ℕ → ℕ → List ℕ
  | 0, _ => []
  | _ + 1, 0 => []
  | fuel + 1, n + 1 => (n + 1) % 10 :: natDigitsAux fuel ((n + 1) / 10)

/-- Decimal digits of a natural number, most significant first. -/
def intDigits (n : ℕ) : List ℕ := if n = 0 then [0] else (natDigitsAux n n).reverse

/-- Long-division digits of the fraction `n / d` (for `n < d`), stopping
when the remainder vanishes or after `fuel` digits. -/
def fracDigitsND : ℕ → ℕ → ℕ → List ℕ
  | 0, _, _ => []
  | _ + 1, 0, _ => []
  | fuel + 1, n + 1, d => (10 * (n + 1)) / d :: fracDigitsND fuel ((10 * (n + 1)) % d) d

/-- JS prints at most 17 significant digits of a double; the model emits
at most 17 fraction digits. -/
def fracFuel : ℕ := 17

/-- Model of JS `String(x)`: sign, integer digits, and a point with the
fraction digits when the fractional part is nonzero - minimal decimal
text with no forced trailing zeros; `String(NaN)` is `"NaN"`.  Known
divergences from JS: the model always prints plain decimal text where
JS switches to exponent form (`|x| ≥ 1e21` or `0 < |x| < 1e-6`), and it
truncates a non-terminating fraction after 17 digits instead of
printing the double's shortest round-trip text.  Both differences
concern only the spelling of a finite value, not whether the text
parses to a finite number. -/
def stringify : JSNum → String
  | .nan => "NaN"
  | .num q =>
    let n := q.num.natAbs
    let d := q.den
    let ip := intDigits (n / d)
    let fp := fracDigitsND fracFuel (n % d) d
    ⟨(if q < 0 then ['-'] else []) ++ digitsStr ip ++ (if fp = [] then [] else '.' :: digitsStr fp)⟩

/-- Largest `e` with `10 ^ e ≤ n` for `n ≥ 1`, by fuel. -/
def log10fuel : ℕ → ℕ → ℕ
  | 0, _ => 0
  | fuel + 1, n => if n < 10 then 0 else log10fuel fuel (n / 10) + 1

/-- Smallest `k` with `10 ^ k ≥ m`, by fuel. -/
def clog10fuel : ℕ → ℕ → ℕ
  | 0, _ => 0
  | fuel + 1, m => if m ≤ 1 then 0 else clog10fuel fuel ((m + 9) / 10) + 1

/-- Floor of the base-10 logarithm of a positive rational (for `q < 1`
the value `⌈q⁻¹⌉` is computed as `(den + num - 1) / num`). -/
def expFloor (q : ℚ) : ℤ :=
  if 1 ≤ q then
    let n := q.num.natAbs / q.den
    (log10fuel n n : ℤ)
  else
    let m := (q.den + q.num.natAbs - 1) / q.num.natAbs
    Neg.neg (clog10fuel m m : ℤ)

/-- Floor of a nonnegative rational. -/
def floorNonneg (q : ℚ) : ℕ := q.num.toNat / q.den

/-- Model of JS `x.toExponential(6)`: `d.dddddde` and a signed exponent,
with the mantissa rounded (ties away from zero) to six fraction digits. -/
def toExponential6 (q : ℚ) : String :=
  if q = 0 then "0.000000e+0"
  else
    let a := |q|
    let e := expFloor a
    let m0 := floorNonneg (a * (10 : ℚ) ^ ((6 : ℤ) - e) + 1 / 2)
    let me : ℕ × ℤ := if m0 < 10 ^ 7 then (m0, e) else (m0 / 10, e + 1)
    let mant : String :=
      match intDigits me.1 with
      | d0 :: rest => ⟨digitChar d0 :: '.' :: digitsStr rest⟩
      | [] => "0.000000"
    (if q < 0 then "-" else "") ++ mant ++ "e" ++
      (if me.2 < 0 then "-" else "+") ++ ⟨digitsStr (intDigits me.2.natAbs)⟩

/-- The component's four React state cells. -/
structure CalcState where
  display : String
  previousValue : Option JSNum
  operation : Option Op
  waitingForNewValue : Bool
deriving DecidableEq

/-- Model of `display.startsWith('-')`. -/
def startsWithMinus (s : String) : Bool :=
  match s.data with
  | c :: _ => c = '-'
  | [] => false

/-- Model of `display.slice(1)`. -/
def sliceFrom1 (s : String) : String := ⟨s.data.drop 1⟩

/-- Model of `display.indexOf('.') === -1`. -/
def hasNoDot (s : String) : Bool := !(s.data.contains '.')

/-- Handler `handleNumberPress(num)` (the haptic call is a no-op side effect). -/
def handleNumberPress (num : String) (s : CalcState) : CalcState :=
  if s.waitingForNewValue then
    { s with display := num, waitingForNewValue := false }
  else
    { s with display := if s.display = "0" then num else s.display ++ num }

/-- Handler `handleDecimalPress()`. -/
def handleDecimalPress (s : CalcState) : CalcState :=
  if s.waitingForNewValue then
    { s with display := "0.", waitingForNewValue := false }
  else if hasNoDot s.display then
    { s with display := s.display ++ "." }
  else s

/-- Function `calculate(first, second, op)`; the `null` operation falls through to
the `default` branch returning `second`. -/
def calculate (first second : JSNum) (op : Option Op) : JSNum :=
  match op with
  | some .add => JSNum.add first second
  | some .sub => JSNum.sub first second
  | some .mul => JSNum.mul first second
  | some .div => if second = JSNum.num 0 then JSNum.nan else JSNum.div first second
  | none => second

/-- Handler `handleOperationPress(op)`. -/
def handleOperationPress (op : Op) (s : CalcState) : CalcState :=
  let currentValue := parseFloat s.display
  match s.previousValue with
  | none =>
      { s with previousValue := some currentValue,
               waitingForNewValue := true, operation := some op }
  | some pv =>
      match s.operation with
      | some _ =>
          let result := calculate pv currentValue s.operation
          { s with display := stringify result, previousValue := some result,
                   waitingForNewValue := true, operation := some op }
      | none =>
          { s with waitingForNewValue := true, operation := some op }

/-- Handler `handleEquals()`. -/
def handleEquals (s : CalcState) : CalcState :=
  match s.previousValue, s.operation with
  | some pv, some _ =>
      let currentValue := parseFloat s.display
      let result := calculate pv currentValue s.operation
      if result.isNaN then
        { s with display := "錯誤", previousValue := none, operation := none,
                 waitingForNewValue := true }
      else
        { s with display := stringify result, previousValue := none, operation := none,
                 waitingForNewValue := true }
  | _, _ => s

/-- Handler `handleClear()`. -/
def handleClear : CalcState :=
  { display := "0", previousValue := none, operation := none, waitingForNewValue := false }

/-- Handler `handleToggleSign()`. -/
def handleToggleSign (s : CalcState) : CalcState :=
  if s.display ≠ "0" then
    { s with display :=
        if startsWithMinus s.display then sliceFrom1 s.display else "-" ++ s.display }
  else s

/-- Handler `handlePercentage()`: `String(parseFloat(display) / 100)`. -/
def handlePercentage (s : CalcState) : CalcState :=
  { s with display := stringify (JSNum.div (parseFloat s.display) (JSNum.num 100)) }

/-- Formatter `formatDisplay(value)`: the pure display formatter. -/
def formatDisplay (value : String) : String :=
  if value = "錯誤" then value
  else
    match parseFloat value with
    | .nan => "0"
    | .num q =>
        if (10 : ℚ) ^ 15 ≤ |q| then toExponential6 q else stringify (JSNum.num q)

/-- The twenty buttons, grouped by the handler they invoke. -/
inductive Event where
  | digit (d : Fin 10)
  | decimal
  | op (o : Op)
  | equals
  | clear
  | toggleSign
  | percent
deriving DecidableEq

/-- The label of a digit button. -/
def digitStr (d : Fin 10) : String := ⟨[digitChar d.1]⟩

/-- One button press. -/
def step (s : CalcState) : Event → CalcState
  | .digit d => handleNumberPress (digitStr d) s
  | .decimal => handleDecimalPress s
  | .op o => handleOperationPress o s
  | .equals => handleEquals s
  | .clear => handleClear
  | .toggleSign => handleToggleSign s
  | .percent => handlePercentage s

/-- The state at UI mount. -/
def initState : CalcState :=
  { display := "0", previousValue := none, operation := none, waitingForNewValue := false }

/-- The state after a sequence of button presses from the initial state. -/
def run (es : List Event) : CalcState := es.foldl step initState

/-! ### Well-formed display strings

`IsBody l` says that `l` is digits, optionally interrupted by a single
point, containing at least one digit.  `IsNumStr s` allows a single
leading minus in front of a body that is not the single character `0`.
Every display the component can show is either such a string or one of
the four error displays. -/

/-- Digits with at most one point and at least one digit. -/
def IsBody (l : List Char) : Prop :=
  ∃ ip : List ℕ, ∃ dot : Bool, ∃ fp : List ℕ,
    l = digitsStr ip ++ (if dot then '.' :: digitsStr fp else []) ∧
    (∀ x ∈ ip, x < 10) ∧ (∀ x ∈ fp, x < 10) ∧
    (dot = false → fp = []) ∧ (ip ≠ [] ∨ fp ≠ [])

/-- A well-formed numeric display: an optional leading minus and a body;
a signed body is not the bare character `0`. -/
def IsNumStr (s : String) : Prop :=
  IsBody s.data ∨ ∃ l, s.data = '-' :: l ∧ IsBody l ∧ l ≠ ['0']

/-- The displays that can show a failed computation. -/
def errDisplays : List String := ["錯誤", "-錯誤", "NaN", "-NaN"]

/-- Every display the component can show. -/
def DisplayOK (d : String) : Prop := IsNumStr d ∨ d ∈ errDisplays

/-- The inductive invariant of the state machine: the display is
well formed or an error display, and while digits are being typed
(`waitingForNewValue = false`) it is always well formed. -/
def Inv (s : CalcState) : Prop :=
  DisplayOK s.display ∧ (s.waitingForNewValue = false → IsNumStr s.display)

theorem digitChar_facts {n : ℕ} (h : n < 10) :
    (digitChar n).isDigit = true ∧ (digitChar n).toNat - 48 = n ∧
    digitChar n ≠ '.' ∧ digitChar n ≠ '-' ∧ digitChar n ≠ '+' ∧ digitChar n ≠ '錯' := by
  interval_cases n <;> exact ⟨by decide, by decide, by decide, by decide, by decide, by decide⟩

theorem takeDigits_digitsStr (ds : List ℕ) (hds : ∀ x ∈ ds, x < 10) (r : List Char)
    (hr : r = [] ∨ ∃ t, r = '.' :: t) :
    takeDigits (digitsStr ds ++ r) = (ds, r) := by
  induction ds with
  | nil =>
      rcases hr with h | ⟨t, h⟩ <;> subst h <;> simp [digitsStr, takeDigits]
  | cons d ds ih =>
      have hd := digitChar_facts (hds d (by simp))
      have ih' := ih (fun x hx => hds x (by simp [hx]))
      simp only [digitsStr] at ih' ⊢
      simp [takeDigits, hd.1, hd.2.1, ih']

theorem parseBody_num {l : List Char}
    (h : ¬((takeDigits l).1 = [] ∧ fracOf (takeDigits l).2 = [])) :
    ∃ q : ℚ, parseBody l = JSNum.num q :=
  ⟨_, if_neg h⟩

theorem parseBody_shape_nodot (ip : List ℕ) (hip : ∀ x ∈ ip, x < 10) (hipne : ip ≠ []) :
    ∃ q : ℚ, parseBody (digitsStr ip) = JSNum.num q := by
  have h1 : takeDigits (digitsStr ip) = (ip, []) := by
    have := takeDigits_digitsStr ip hip [] (Or.inl rfl)
    rwa [List.append_nil] at this
  refine parseBody_num ?_
  rw [h1]
  simp [fracOf, hipne]

theorem parseBody_shape_dot (ip fp : List ℕ) (hip : ∀ x ∈ ip, x < 10)
    (hfp : ∀ x ∈ fp, x < 10) (hne : ip ≠ [] ∨ fp ≠ []) :
    ∃ q : ℚ, parseBody (digitsStr ip ++ '.' :: digitsStr fp) = JSNum.num q := by
  have h2 : takeDigits (digitsStr fp) = (fp, []) := by
    have := takeDigits_digitsStr fp hfp [] (Or.inl rfl)
    rwa [List.append_nil] at this
  have h1 : takeDigits (digitsStr ip ++ ('.' :: digitsStr fp)) = (ip, '.' :: digitsStr fp) :=
    takeDigits_digitsStr ip hip _ (Or.inr ⟨digitsStr fp, rfl⟩)
  have hcond : ¬(ip = [] ∧ fp = []) := by
    rcases hne with h | h <;> intro hc
    · exact h hc.1
    · exact h hc.2
  refine parseBody_num ?_
  rw [h1]
  simpa [fracOf, h2] using hcond

theorem parseBody_isBody {l : List Char} (h : IsBody l) :
    ∃ q : ℚ, parseBody l = JSNum.num q := by
  obtain ⟨ip, dot, fp, hl, hip, hfp, hdf, hne⟩ := h
  cases dot with
  | false =>
      rw [if_neg (by decide : ¬(false = true)), List.append_nil] at hl
      subst hl
      have hfp0 := hdf rfl
      exact parseBody_shape_nodot ip hip (by
        rcases hne with h | h
        · exact h
        · exact absurd hfp0 h)
  | true =>
      rw [if_pos rfl] at hl
      subst hl
      exact parseBody_shape_dot ip fp hip hfp hne

theorem isBody_head {l : List Char} (h : IsBody l) :
    ∃ c r, l = c :: r ∧ c ≠ '-' ∧ c ≠ '+' ∧ c ≠ '錯' := by
  obtain ⟨ip, dot, fp, hl, hip, hfp, hdf, hne⟩ := h
  cases ip with
  | nil =>
      have hdot : dot = true := by
        cases dot with
        | false =>
            have := hdf rfl
            rcases hne with h | h
            · exact absurd rfl h
            · exact absurd this h
        | true => rfl
      subst hdot
      exact ⟨'.', digitsStr fp, by simpa [digitsStr] using hl, by decide, by decide, by decide⟩
  | cons x xs =>
      have hx := digitChar_facts (hip x (by simp))
      exact ⟨digitChar x, digitsStr xs ++ (if dot then '.' :: digitsStr fp else []),
        by simpa [digitsStr] using hl, hx.2.2.2.1, hx.2.2.2.2.1, hx.2.2.2.2.2⟩

theorem parseFloatChars_isBody {l : List Char} (h : IsBody l) :
    ∃ q : ℚ, parseFloatChars l = JSNum.num q := by
  obtain ⟨c, r, hl, hm, hp, -⟩ := isBody_head h
  obtain ⟨q, hq⟩ := parseBody_isBody h
  subst hl
  exact ⟨q, by simp [parseFloatChars, hm, hp, hq]⟩

theorem parseFloat_isNumStr {s : String} (h : IsNumStr s) :
    ∃ q : ℚ, parseFloat s = JSNum.num q := by
  rcases h with hb | ⟨l, hl, hb, -⟩
  · exact parseFloatChars_isBody hb
  · obtain ⟨q, hq⟩ := parseBody_isBody hb
    refine ⟨-q, ?_⟩
    simp [parseFloat, hl, parseFloatChars, hq, negJS]

theorem parseFloat_isNumStr_finite {s : String} (h : IsNumStr s) :
    (parseFloat s).isFinite = true := by
  obtain ⟨q, hq⟩ := parseFloat_isNumStr h
  simp [hq, JSNum.isFinite]

/-! ### Closure properties of well-formed bodies -/

theorem isBody_elim {l : List Char} (h : IsBody l) :
    (∃ ip, l = digitsStr ip ∧ (∀ x ∈ ip, x < 10) ∧ ip ≠ []) ∨
    (∃ ip fp, l = digitsStr ip ++ '.' :: digitsStr fp ∧
      (∀ x ∈ ip, x < 10) ∧ (∀ x ∈ fp, x < 10) ∧ (ip ≠ [] ∨ fp ≠ [])) := by
  obtain ⟨ip, dot, fp, hl, hip, hfp, hdf, hne⟩ := h
  cases dot with
  | false =>
      rw [if_neg (by decide : ¬(false = true)), List.append_nil] at hl
      refine Or.inl ⟨ip, hl, hip, ?_⟩
      rcases hne with h | h
      · exact h
      · exact absurd (hdf rfl) h
  | true =>
      rw [if_pos rfl] at hl
      exact Or.inr ⟨ip, fp, hl, hip, hfp, hne⟩

theorem isBody_intro_nodot (ip : List ℕ) (hip : ∀ x ∈ ip, x < 10) (hipne : ip ≠ []) :
    IsBody (digitsStr ip) :=
  ⟨ip, false, [], by simp, hip, by simp, fun _ => rfl, Or.inl hipne⟩

theorem isBody_intro_dot (ip fp : List ℕ) (hip : ∀ x ∈ ip, x < 10)
    (hfp : ∀ x ∈ fp, x < 10) (hne : ip ≠ [] ∨ fp ≠ []) :
    IsBody (digitsStr ip ++ '.' :: digitsStr fp) :=
  ⟨ip, true, fp, by simp, hip, hfp, by simp, hne⟩

theorem not_mem_digitsStr {c : Char} (hc : ∀ n : ℕ, n < 10 → c ≠ digitChar n)
    {ds : List ℕ} (hds : ∀ x ∈ ds, x < 10) : c ∉ digitsStr ds := by
  intro hmem
  obtain ⟨x, hx, hxc⟩ := List.mem_map.1 hmem
  exact hc x (hds x hx) hxc.symm

theorem dot_not_mem_digitsStr {ds : List ℕ} (hds : ∀ x ∈ ds, x < 10) :
    '.' ∉ digitsStr ds :=
  not_mem_digitsStr (fun _ hn => ((digitChar_facts hn).2.2.1 ∘ Eq.symm)) hds

theorem isBody_ne_nil {l : List Char} (h : IsBody l) : l ≠ [] := by
  rcases isBody_elim h with ⟨ip, hl, hip, hne⟩ | ⟨ip, fp, hl, hip, hfp, hne⟩
  · subst hl
    simpa [digitsStr] using hne
  · subst hl
    rcases ip with _ | ⟨x, xs⟩ <;> simp [digitsStr]

theorem isBody_append_digit {l : List Char} (h : IsBody l) {d : ℕ} (hd : d < 10) :
    IsBody (l ++ [digitChar d]) := by
  rcases isBody_elim h with ⟨ip, hl, hip, hne⟩ | ⟨ip, fp, hl, hip, hfp, hne⟩
  · subst hl
    have : digitsStr ip ++ [digitChar d] = digitsStr (ip ++ [d]) := by
      simp [digitsStr]
    rw [this]
    refine isBody_intro_nodot _ ?_ (by simp)
    intro x hx
    rcases List.mem_append.1 hx with h' | h'
    · exact hip x h'
    · simp at h'
      omega
  · subst hl
    have : (digitsStr ip ++ '.' :: digitsStr fp) ++ [digitChar d] =
        digitsStr ip ++ '.' :: digitsStr (fp ++ [d]) := by
      simp [digitsStr]
    rw [this]
    refine isBody_intro_dot _ _ hip ?_ (Or.inr (by simp))
    intro x hx
    rcases List.mem_append.1 hx with h' | h'
    · exact hfp x h'
    · simp at h'
      omega

theorem isBody_append_dot {l : List Char} (h : IsBody l) (hnd : '.' ∉ l) :
    IsBody (l ++ ['.']) := by
  rcases isBody_elim h with ⟨ip, hl, hip, hne⟩ | ⟨ip, fp, hl, hip, hfp, hne⟩
  · subst hl
    have : digitsStr ip ++ ['.'] = digitsStr ip ++ '.' :: digitsStr [] := by
      simp [digitsStr]
    rw [this]
    exact isBody_intro_dot _ _ hip (by simp) (Or.inl hne)
  · subst hl
    exact absurd (by simp : '.' ∈ digitsStr ip ++ '.' :: digitsStr fp) hnd

theorem isBody_count_dot {l : List Char} (h : IsBody l) : l.count '.' ≤ 1 := by
  rcases isBody_elim h with ⟨ip, hl, hip, -⟩ | ⟨ip, fp, hl, hip, hfp, -⟩
  · subst hl
    rw [List.count_eq_zero.2 (dot_not_mem_digitsStr hip)]
    omega
  · subst hl
    rw [List.count_append,
      List.count_eq_zero.2 (dot_not_mem_digitsStr hip), List.count_cons,
      List.count_eq_zero.2 (dot_not_mem_digitsStr hfp)]
    simp

theorem isBody_head_ne_minus {l : List Char} (h : IsBody l) :
    startsWithMinus ⟨l⟩ = false := by
  obtain ⟨c, r, hl, hm, -⟩ := isBody_head h
  subst hl
  simp [startsWithMinus, hm]

theorem isBody_append_ne_zero {l : List Char} (h : IsBody l) (c : Char) :
    l ++ [c] ≠ ['0'] := by
  intro hc
  have := congrArg List.length hc
  have hne := isBody_ne_nil h
  simp at this
  exact hne this

theorem isBody_digitStr (d : Fin 10) : IsBody [digitChar d.1] := by
  have : [digitChar d.1] = digitsStr [d.1] := by simp [digitsStr]
  rw [this]
  exact isBody_intro_nodot _ (by simp) (by simp)

theorem isBody_zero_dot : IsBody ['0', '.'] := by
  have : ['0', '.'] = digitsStr [0] ++ '.' :: digitsStr [] := by simp [digitsStr, digitChar]
  rw [this]
  exact isBody_intro_dot _ _ (by simp) (by simp) (Or.inl (by simp))

/-! ### Structure of `stringify` output -/

theorem natDigitsAux_lt (fuel : ℕ) : ∀ n : ℕ, ∀ x ∈ natDigitsAux fuel n, x < 10 := by
  induction fuel with
  | zero => intro n x hx; simp [natDigitsAux] at hx
  | succ fuel ih =>
      intro n x hx
      cases n with
      | zero => simp [natDigitsAux] at hx
      | succ m =>
          simp only [natDigitsAux, List.mem_cons] at hx
          rcases hx with h | h
          · omega
          · exact ih _ x h

theorem natDigitsAux_lt' {fuel n x : ℕ} (hx : x ∈ natDigitsAux fuel n) : x < 10 := by
  have hmod : (n % 10 < 10) := Nat.mod_lt _ (by omega)
  exact natDigitsAux_lt fuel n x hx

theorem natDigitsAux_nil {fuel n : ℕ} (h : natDigitsAux fuel n = []) :
    fuel = 0 ∨ n = 0 := by
  cases fuel with
  | zero => exact Or.inl rfl
  | succ fuel =>
      cases n with
      | zero => exact Or.inr rfl
      | succ m => simp [natDigitsAux] at h

theorem intDigits_lt (n : ℕ) : ∀ x ∈ intDigits n, x < 10 := by
  intro x hx
  unfold intDigits at hx
  by_cases h : n = 0
  · simp [h] at hx
    omega
  · rw [if_neg h, List.mem_reverse] at hx
    exact natDigitsAux_lt' hx

theorem intDigits_ne_nil (n : ℕ) : intDigits n ≠ [] := by
  unfold intDigits
  by_cases h : n = 0
  · simp [h]
  · rw [if_neg h]
    intro hc
    rw [List.reverse_eq_nil_iff] at hc
    rcases natDigitsAux_nil hc with h' | h' <;> exact h h'

theorem intDigits_eq_zero {n : ℕ} (h : intDigits n = [0]) : n = 0 := by
  by_contra hn
  unfold intDigits at h
  rw [if_neg hn] at h
  obtain ⟨m, rfl⟩ : ∃ m, n = m + 1 := ⟨n - 1, by omega⟩
  have hexp : natDigitsAux (m + 1) (m + 1) = (m + 1) % 10 :: natDigitsAux m ((m + 1) / 10) :=
    rfl
  rw [hexp] at h
  have h' : (m + 1) % 10 :: natDigitsAux m ((m + 1) / 10) = [0] := by
    have := congrArg List.reverse h
    simpa using this
  have hmod : (m + 1) % 10 = 0 := (List.cons_eq_cons.1 h').1
  have htail : natDigitsAux m ((m + 1) / 10) = [] := (List.cons_eq_cons.1 h').2
  rcases natDigitsAux_nil htail with h0 | h0
  · subst h0
    omega
  · omega

theorem fracDigitsND_lt (fuel : ℕ) : ∀ n d : ℕ, 0 < d → n < d →
    ∀ x ∈ fracDigitsND fuel n d, x < 10 := by
  induction fuel with
  | zero => intro n d _ _ x hx; simp [fracDigitsND] at hx
  | succ fuel ih =>
      intro n d hd hn x hx
      cases n with
      | zero => simp [fracDigitsND] at hx
      | succ m =>
          simp only [fracDigitsND, List.mem_cons] at hx
          rcases hx with h | h
          · subst h
            have : 10 * (m + 1) < 10 * d := by omega
            exact Nat.div_lt_of_lt_mul (by omega)
          · exact ih _ d hd (Nat.mod_lt _ hd) x h

theorem fracDigitsND_nil {fuel n d : ℕ} (hf : 0 < fuel)
    (h : fracDigitsND fuel n d = []) : n = 0 := by
  cases fuel with
  | zero => omega
  | succ fuel =>
      cases n with
      | zero => rfl
      | succ m => simp [fracDigitsND] at h

/-- The unsigned decimal text produced by `stringify` for `n / d`. -/
def coreChars (n d : ℕ) : List Char :=
  digitsStr (intDigits (n / d)) ++
    (if fracDigitsND fracFuel (n % d) d = [] then []
     else '.' :: digitsStr (fracDigitsND fracFuel (n % d) d))

theorem stringify_num_eq (q : ℚ) :
    stringify (JSNum.num q) =
      ⟨(if q < 0 then ['-'] else []) ++ coreChars q.num.natAbs q.den⟩ := by
  unfold stringify coreChars
  exact congrArg String.mk (List.append_assoc _ _ _)

theorem isBody_coreChars (n d : ℕ) (hd : 0 < d) : IsBody (coreChars n d) := by
  unfold coreChars
  by_cases hfp : fracDigitsND fracFuel (n % d) d = []
  · rw [if_pos hfp, List.append_nil]
    exact isBody_intro_nodot _ (intDigits_lt _) (intDigits_ne_nil _)
  · rw [if_neg hfp]
    exact isBody_intro_dot _ _ (intDigits_lt _)
      (fracDigitsND_lt _ _ _ hd (Nat.mod_lt _ hd)) (Or.inl (intDigits_ne_nil _))

theorem digitChar_eq_zero {x : ℕ} (hx : x < 10) (h : digitChar x = '0') : x = 0 := by
  interval_cases x <;> first | rfl | exact absurd h (by decide)

theorem coreChars_ne_zero {n d : ℕ} (hn : n ≠ 0) :
    coreChars n d ≠ ['0'] := by
  unfold coreChars
  by_cases hfp : fracDigitsND fracFuel (n % d) d = []
  · rw [if_pos hfp, List.append_nil]
    intro hc
    unfold digitsStr at hc
    rcases h' : intDigits (n / d) with _ | ⟨x, xs⟩
    · exact intDigits_ne_nil _ h'
    · rw [h'] at hc
      simp only [List.map_cons] at hc
      have hx : digitChar x = '0' := (List.cons_eq_cons.1 hc).1
      have hxs : List.map digitChar xs = [] := (List.cons_eq_cons.1 hc).2
      have hx0 : x = 0 := digitChar_eq_zero (intDigits_lt _ x (by rw [h']; simp)) hx
      have hxs0 : xs = [] := List.map_eq_nil_iff.1 hxs
      have hzero : intDigits (n / d) = [0] := by rw [h', hx0, hxs0]
      have hdiv : n / d = 0 := intDigits_eq_zero hzero
      have hmod : n % d = 0 := fracDigitsND_nil (by norm_num [fracFuel]) hfp
      have hsum := Nat.div_add_mod n d
      rw [hdiv, hmod] at hsum
      omega
  · rw [if_neg hfp]
    intro hc
    have hlen := congrArg List.length hc
    simp [digitsStr] at hlen
    have hip : 0 < (intDigits (n / d)).length := List.length_pos.2 (intDigits_ne_nil _)
    omega

theorem isNumStr_stringify_num (q : ℚ) : IsNumStr (stringify (JSNum.num q)) := by
  rw [stringify_num_eq]
  by_cases hq : q < 0
  · rw [if_pos hq]
    refine Or.inr ⟨coreChars q.num.natAbs q.den, rfl, isBody_coreChars _ _ q.den_pos, ?_⟩
    refine coreChars_ne_zero ?_
    have hq0 : q.num ≠ 0 := Rat.num_ne_zero.2 (ne_of_lt hq)
    simpa [Int.natAbs_eq_zero] using hq0
  · rw [if_neg hq]
    exact Or.inl (isBody_coreChars q.num.natAbs q.den q.den_pos)

theorem displayOK_stringify (x : JSNum) : DisplayOK (stringify x) := by
  cases x with
  | num q => exact Or.inl (isNumStr_stringify_num q)
  | nan => exact Or.inr (by decide)

theorem stringify_ne_err (x : JSNum) : stringify x ≠ "錯誤" := by
  cases x with
  | nan => decide
  | num q =>
      rw [stringify_num_eq]
      intro hc
      have hdata : (if q < 0 then ['-'] else []) ++ coreChars q.num.natAbs q.den =
          ['錯', '誤'] := congrArg String.data hc
      obtain ⟨c, r, hcr, -, -, herr⟩ :=
        isBody_head (isBody_coreChars q.num.natAbs q.den q.den_pos)
      by_cases hq : q < 0
      · rw [if_pos hq] at hdata
        exact absurd (List.cons_eq_cons.1 hdata).1 (by decide)
      · rw [if_neg hq, List.nil_append, hcr] at hdata
        exact herr (List.cons_eq_cons.1 hdata).1

/-! ### Well-formedness at the `String` level -/

theorem isNumStr_digitStr (d : Fin 10) : IsNumStr (digitStr d) :=
  Or.inl (isBody_digitStr d)

theorem isNumStr_zero : IsNumStr "0" := by
  have h : ("0" : String).data = [digitChar 0] := by decide
  unfold IsNumStr
  rw [h]
  exact Or.inl (isBody_digitStr ⟨0, by omega⟩)

theorem isNumStr_zeroDot : IsNumStr "0." := by
  have h : ("0." : String).data = ['0', '.'] := by decide
  unfold IsNumStr
  rw [h]
  exact Or.inl isBody_zero_dot

theorem isNumStr_ne_empty {s : String} (h : IsNumStr s) : s.data ≠ [] := by
  rcases h with hb | ⟨l, hl, -, -⟩
  · exact isBody_ne_nil hb
  · rw [hl]
    simp

theorem isNumStr_append_digit {s : String} (h : IsNumStr s) (d : Fin 10) :
    IsNumStr (s ++ digitStr d) := by
  rcases h with hb | ⟨l, hl, hb, hne⟩
  · left
    rw [String.data_append]
    exact isBody_append_digit hb d.2
  · right
    refine ⟨l ++ [digitChar d.1], ?_, isBody_append_digit hb d.2, isBody_append_ne_zero hb _⟩
    rw [String.data_append, hl]
    rfl

theorem hasNoDot_not_mem {s : String} (hnd : hasNoDot s = true) : '.' ∉ s.data := by
  have hcont : s.data.contains '.' = false := by
    cases hc : s.data.contains '.' with
    | false => rfl
    | true => rw [hasNoDot, hc] at hnd; simp at hnd
  intro hmem
  rw [List.contains_eq_any_beq] at hcont
  have : s.data.any (fun c => '.' == c) = true := List.any_eq_true.2 ⟨'.', hmem, by simp⟩
  rw [this] at hcont
  simp at hcont

theorem isNumStr_append_dot {s : String} (h : IsNumStr s) (hnd : hasNoDot s = true) :
    IsNumStr (s ++ ".") := by
  have hmem := hasNoDot_not_mem hnd
  rcases h with hb | ⟨l, hl, hb, hne⟩
  · left
    rw [String.data_append]
    exact isBody_append_dot hb hmem
  · right
    rw [hl] at hmem
    refine ⟨l ++ ['.'], ?_, isBody_append_dot hb (fun hx => hmem (List.mem_cons_of_mem _ hx)),
      isBody_append_ne_zero hb _⟩
    rw [String.data_append, hl]
    rfl

theorem startsWithMinus_of_data {s : String} {l : List Char} (hl : s.data = '-' :: l) :
    startsWithMinus s = true := by
  unfold startsWithMinus
  rw [hl]
  simp

theorem startsWithMinus_isBody {s : String} (hb : IsBody s.data) :
    startsWithMinus s = false := by
  obtain ⟨c, r, hcr, hm, -, -⟩ := isBody_head hb
  unfold startsWithMinus
  rw [hcr]
  simpa using hm

theorem sliceFrom1_of_data {s : String} {l : List Char} (hl : s.data = '-' :: l) :
    sliceFrom1 s = ⟨l⟩ := by
  unfold sliceFrom1
  rw [hl]
  rfl

theorem ne_zero_of_data_cons {s : String} {l : List Char} (hl : s.data = '-' :: l) :
    s ≠ "0" := by
  intro hc
  rw [hc] at hl
  have h0 : ('0' : Char) = '-' := (List.cons_eq_cons.1 hl).1
  exact absurd h0 (by decide)

/-! ### Unfolding equations of the handlers -/

theorem handleOperationPress_none {s : CalcState} (h : s.previousValue = none) (op : Op) :
    handleOperationPress op s =
      { s with previousValue := some (parseFloat s.display),
               waitingForNewValue := true, operation := some op } := by
  obtain ⟨d, p, o, w⟩ := s
  cases h
  rfl

theorem handleOperationPress_some {s : CalcState} {pv : JSNum} {o : Op}
    (hpv : s.previousValue = some pv) (hop : s.operation = some o) (op : Op) :
    handleOperationPress op s =
      { s with display := stringify (calculate pv (parseFloat s.display) (some o)),
               previousValue := some (calculate pv (parseFloat s.display) (some o)),
               waitingForNewValue := true, operation := some op } := by
  obtain ⟨d, p, o', w⟩ := s
  cases hpv
  cases hop
  rfl

theorem handleOperationPress_skip {s : CalcState} {pv : JSNum}
    (hpv : s.previousValue = some pv) (hop : s.operation = none) (op : Op) :
    handleOperationPress op s =
      { s with waitingForNewValue := true, operation := some op } := by
  obtain ⟨d, p, o', w⟩ := s
  cases hpv
  cases hop
  rfl

theorem handleEquals_noop {s : CalcState}
    (h : s.previousValue = none ∨ s.operation = none) : handleEquals s = s := by
  obtain ⟨d, p, o, w⟩ := s
  rcases h with h | h <;> cases h
  · rfl
  · cases p <;> rfl

theorem handleEquals_some {s : CalcState} {pv : JSNum} {o : Op}
    (hpv : s.previousValue = some pv) (hop : s.operation = some o) :
    handleEquals s =
      if (calculate pv (parseFloat s.display) (some o)).isNaN = true then
        { display := "錯誤", previousValue := none, operation := none,
          waitingForNewValue := true }
      else
        { display := stringify (calculate pv (parseFloat s.display) (some o)),
          previousValue := none, operation := none, waitingForNewValue := true } := by
  obtain ⟨d, p, o', w⟩ := s
  cases hpv
  cases hop
  rfl

/-! ### Preservation of the invariant -/

theorem inv_init : Inv initState :=
  ⟨Or.inl isNumStr_zero, fun _ => isNumStr_zero⟩

theorem err_mem_iff {d : String} : d ∈ errDisplays ↔
    d = "錯誤" ∨ d = "-錯誤" ∨ d = "NaN" ∨ d = "-NaN" := by
  simp [errDisplays]

theorem inv_handleNumberPress {s : CalcState} (h : Inv s) (d : Fin 10) :
    Inv (handleNumberPress (digitStr d) s) := by
  unfold handleNumberPress
  cases hw : s.waitingForNewValue with
  | true =>
      rw [if_pos rfl]
      exact ⟨Or.inl (isNumStr_digitStr d), fun _ => isNumStr_digitStr d⟩
  | false =>
      rw [if_neg (by simp)]
      have hns : IsNumStr s.display := h.2 hw
      by_cases h0 : s.display = "0"
      · rw [if_pos h0]
        exact ⟨Or.inl (isNumStr_digitStr d), fun _ => isNumStr_digitStr d⟩
      · rw [if_neg h0]
        have hap := isNumStr_append_digit hns d
        exact ⟨Or.inl hap, fun _ => hap⟩

theorem inv_handleDecimalPress {s : CalcState} (h : Inv s) :
    Inv (handleDecimalPress s) := by
  unfold handleDecimalPress
  cases hw : s.waitingForNewValue with
  | true =>
      rw [if_pos rfl]
      exact ⟨Or.inl isNumStr_zeroDot, fun _ => isNumStr_zeroDot⟩
  | false =>
      rw [if_neg (by simp)]
      have hns : IsNumStr s.display := h.2 hw
      by_cases hnd : hasNoDot s.display = true
      · rw [if_pos hnd]
        have hap := isNumStr_append_dot hns hnd
        exact ⟨Or.inl hap, fun _ => hap⟩
      · rw [if_neg hnd]
        exact h

theorem inv_handleOperationPress {s : CalcState} (h : Inv s) (op : Op) :
    Inv (handleOperationPress op s) := by
  cases hpv : s.previousValue with
  | none =>
      rw [handleOperationPress_none hpv]
      exact ⟨h.1, fun hc => nomatch hc⟩
  | some pv =>
      cases hop : s.operation with
      | some o =>
          rw [handleOperationPress_some hpv hop]
          exact ⟨displayOK_stringify _, fun hc => nomatch hc⟩
      | none =>
          rw [handleOperationPress_skip hpv hop]
          exact ⟨h.1, fun hc => nomatch hc⟩

theorem inv_handleEquals {s : CalcState} (h : Inv s) : Inv (handleEquals s) := by
  cases hpv : s.previousValue with
  | none => rw [handleEquals_noop (Or.inl hpv)]; exact h
  | some pv =>
      cases hop : s.operation with
      | none => rw [handleEquals_noop (Or.inr hop)]; exact h
      | some o =>
          rw [handleEquals_some hpv hop]
          cases hres : calculate pv (parseFloat s.display) (some o) with
          | nan =>
              rw [if_pos (show JSNum.nan.isNaN = true from rfl)]
              exact ⟨Or.inr (by decide), fun hc => nomatch hc⟩
          | num q =>
              rw [if_neg (by simp [JSNum.isNaN])]
              exact ⟨displayOK_stringify _, fun hc => nomatch hc⟩

theorem isNumStr_toggle {t : String} (h : IsNumStr t) (h0 : t ≠ "0") :
    IsNumStr (if startsWithMinus t then sliceFrom1 t else "-" ++ t) := by
  rcases h with hb | ⟨l, hl, hb, hne⟩
  · rw [startsWithMinus_isBody hb, if_neg (by simp)]
    refine Or.inr ⟨t.data, ?_, hb, fun hc => h0 (String.ext hc)⟩
    rw [String.data_append]
    rfl
  · rw [startsWithMinus_of_data hl, if_pos rfl, sliceFrom1_of_data hl]
    exact Or.inl hb

theorem displayOK_toggle {t : String} (h : DisplayOK t) (h0 : t ≠ "0") :
    DisplayOK (if startsWithMinus t then sliceFrom1 t else "-" ++ t) := by
  rcases h with hn | herr
  · exact Or.inl (isNumStr_toggle hn h0)
  · rcases err_mem_iff.1 herr with rfl | rfl | rfl | rfl <;> exact Or.inr (by decide)

theorem inv_handleToggleSign {s : CalcState} (h : Inv s) : Inv (handleToggleSign s) := by
  unfold handleToggleSign
  by_cases h0 : s.display = "0"
  · rw [if_neg (not_not_intro h0)]
    exact h
  · rw [if_pos h0]
    exact ⟨displayOK_toggle h.1 h0, fun hw => isNumStr_toggle (h.2 hw) h0⟩

theorem div100_num (q : ℚ) :
    JSNum.div (JSNum.num q) (JSNum.num 100) = JSNum.num (q / 100) := by
  simp only [JSNum.div]
  rw [if_neg (by norm_num : ¬(100 : ℚ) = 0)]

theorem inv_handlePercentage {s : CalcState} (h : Inv s) : Inv (handlePercentage s) := by
  unfold handlePercentage
  refine ⟨displayOK_stringify _, fun hw => ?_⟩
  have hns := h.2 hw
  obtain ⟨q, hq⟩ := parseFloat_isNumStr hns
  rw [hq, div100_num]
  exact isNumStr_stringify_num _

theorem inv_step {s : CalcState} (h : Inv s) (e : Event) : Inv (step s e) := by
  cases e with
  | digit d => exact inv_handleNumberPress h d
  | decimal => exact inv_handleDecimalPress h
  | op o => exact inv_handleOperationPress h o
  | equals => exact inv_handleEquals h
  | clear => exact ⟨Or.inl isNumStr_zero, fun _ => isNumStr_zero⟩
  | toggleSign => exact inv_handleToggleSign h
  | percent => exact inv_handlePercentage h

theorem inv_foldl (es : List Event) : ∀ s, Inv s → Inv (es.foldl step s) := by
  induction es with
  | nil => exact fun _ h => h
  | cons e es ih => exact fun s h => ih _ (inv_step h e)

theorem inv_run (es : List Event) : Inv (run es) := inv_foldl es _ inv_init

/-! ### Further unfolding equations and arithmetic facts -/

theorem handleNumberPress_waiting {s : CalcState} (hw : s.waitingForNewValue = true)
    (num : String) :
    handleNumberPress num s = { s with display := num, waitingForNewValue := false } := by
  unfold handleNumberPress
  rw [if_pos hw]

theorem handleNumberPress_zero {s : CalcState} (hw : s.waitingForNewValue = false)
    (h0 : s.display = "0") (num : String) :
    handleNumberPress num s = { s with display := num } := by
  unfold handleNumberPress
  rw [if_neg (by simp [hw]), if_pos h0]

theorem handleNumberPress_append {s : CalcState} (hw : s.waitingForNewValue = false)
    (h0 : s.display ≠ "0") (num : String) :
    handleNumberPress num s = { s with display := s.display ++ num } := by
  unfold handleNumberPress
  rw [if_neg (by simp [hw]), if_neg h0]

/-- The toggled display text. -/
def toggleStr (t : String) : String :=
  if t ≠ "0" then (if startsWithMinus t then sliceFrom1 t else "-" ++ t) else t

theorem handleToggleSign_eq (s : CalcState) :
    handleToggleSign s = { s with display := toggleStr s.display } := by
  unfold handleToggleSign toggleStr
  by_cases h0 : s.display ≠ "0"
  · rw [if_pos h0, if_pos h0]
  · rw [if_neg h0, if_neg h0]

theorem calculate_nan_second (a : JSNum) (op : Option Op) :
    calculate a JSNum.nan op = JSNum.nan := by
  cases op with
  | none => rfl
  | some o => cases o <;> cases a <;> rfl

theorem calculate_num0_div (a : JSNum) :
    calculate a (JSNum.num 0) (some Op.div) = JSNum.nan := by
  unfold calculate
  rw [if_pos rfl]

theorem toggleStr_toggleStr {t : String} (h : DisplayOK t) :
    toggleStr (toggleStr t) = t := by
  by_cases h0 : t = "0"
  · subst h0
    rfl
  · rcases h with hn | herr
    · rcases hn with hb | ⟨l, hl, hb, hne⟩
      · have hsw := startsWithMinus_isBody hb
        have e1 : toggleStr t = "-" ++ t := by
          unfold toggleStr
          rw [if_pos h0, hsw, if_neg (by simp)]
        rw [e1]
        have hdata : ("-" ++ t).data = '-' :: t.data := rfl
        have e2 : toggleStr ("-" ++ t) = ⟨t.data⟩ := by
          unfold toggleStr
          rw [if_pos (ne_zero_of_data_cons hdata), startsWithMinus_of_data hdata,
            if_pos rfl, sliceFrom1_of_data hdata]
        rw [e2]
      · have e1 : toggleStr t = ⟨l⟩ := by
          unfold toggleStr
          rw [if_pos h0, startsWithMinus_of_data hl, if_pos rfl, sliceFrom1_of_data hl]
        rw [e1]
        have hb' : IsBody (⟨l⟩ : String).data := hb
        have hsw := startsWithMinus_isBody hb'
        have h0' : (⟨l⟩ : String) ≠ "0" := by
          intro hc
          apply hne
          simpa using congrArg String.data hc
        have e2 : toggleStr ⟨l⟩ = "-" ++ ⟨l⟩ := by
          unfold toggleStr
          rw [if_pos h0', hsw, if_neg (by simp)]
        rw [e2]
        apply String.ext
        rw [String.data_append, hl]
        rfl
    · rcases err_mem_iff.1 herr with rfl | rfl | rfl | rfl <;> decide

theorem toggle_toggle_state {s : CalcState} (h : DisplayOK s.display) :
    handleToggleSign (handleToggleSign s) = s := by
  rw [handleToggleSign_eq, handleToggleSign_eq]
  show ({ s with display := toggleStr (toggleStr s.display) } : CalcState) = s
  rw [toggleStr_toggleStr h]

/-! ### Digit sequences concatenate -/

theorem append_digit_ne_zero {s : String} (hne : s.data ≠ []) (d : Fin 10) :
    s ++ digitStr d ≠ "0" := by
  intro hc
  have hd := congrArg String.data hc
  rw [String.data_append] at hd
  have hlen : s.data.length + 1 = 1 := by
    simpa [digitStr] using congrArg List.length hd
  exact hne (List.length_eq_zero.1 (by omega))

theorem digitStr_ne_zero {d : Fin 10} (hd : d ≠ 0) : digitStr d ≠ "0" := by
  intro hc
  have h := congrArg String.data hc
  have h1 : digitChar d.1 = '0' := (List.cons_eq_cons.1 h).1
  exact hd (Fin.ext (digitChar_eq_zero d.2 h1))

theorem digits_fold_append {s : CalcState} (hw : s.waitingForNewValue = false)
    (h0 : s.display ≠ "0") (hne : s.display.data ≠ []) (ds : List (Fin 10)) :
    (List.foldl step s (ds.map Event.digit)).display =
      s.display ++ ⟨ds.map fun d => digitChar d.1⟩ := by
  induction ds generalizing s with
  | nil =>
      apply String.ext
      simp
  | cons d rest ih =>
      simp only [List.map_cons, List.foldl_cons]
      have hstep : step s (Event.digit d) = handleNumberPress (digitStr d) s := rfl
      rw [hstep, handleNumberPress_append hw h0]
      have hw' : ({ s with display := s.display ++ digitStr d } : CalcState).waitingForNewValue =
          false := hw
      have h0' : ({ s with display := s.display ++ digitStr d } : CalcState).display ≠ "0" :=
        append_digit_ne_zero hne d
      have hne' : ({ s with display := s.display ++ digitStr d } : CalcState).display.data ≠
          [] := by
        show (s.display ++ digitStr d).data ≠ []
        rw [String.data_append]
        simp [digitStr]
      rw [ih hw' h0' hne']
      apply String.ext
      simp [digitStr]

theorem digits_fold_zero {s : CalcState} (hw : s.waitingForNewValue = false)
    (h0 : s.display = "0") (ds : List (Fin 10)) :
    (List.foldl step s (ds.map Event.digit)).display =
      if ds.dropWhile (fun d => d = 0) = [] then "0"
      else ⟨(ds.dropWhile (fun d => d = 0)).map fun d => digitChar d.1⟩ := by
  induction ds generalizing s with
  | nil => simpa using h0
  | cons d rest ih =>
      simp only [List.map_cons, List.foldl_cons]
      have hstep : step s (Event.digit d) = handleNumberPress (digitStr d) s := rfl
      rw [hstep, handleNumberPress_zero hw h0]
      by_cases hd : d = 0
      · subst hd
        have hw' : ({ s with display := digitStr 0 } : CalcState).waitingForNewValue =
            false := hw
        have e : ({ s with display := digitStr 0 } : CalcState).display = "0" := rfl
        rw [ih hw' e]
        simp [List.dropWhile_cons]
      · have hw' : ({ s with display := digitStr d } : CalcState).waitingForNewValue =
            false := hw
        have h0' : ({ s with display := digitStr d } : CalcState).display ≠ "0" :=
          digitStr_ne_zero hd
        have hne' : ({ s with display := digitStr d } : CalcState).display.data ≠ [] := by
          simp [digitStr]
        rw [digits_fold_append hw' h0' hne' rest]
        rw [List.dropWhile_cons]
        simp only [hd, decide_False, Bool.false_eq_true, if_false]
        rw [if_neg (by simp)]
        apply String.ext
        simp [digitStr]

theorem parseFloat_digitStr_finite : ∀ d : Fin 10, (parseFloat (digitStr d)).isFinite = true := by
  decide

theorem hasNoDot_append_dot (s : String) : hasNoDot (s ++ ".") = false := by
  unfold hasNoDot
  have hc : ((s ++ ".").data).contains '.' = true := by
    rw [List.contains_eq_any_beq]
    exact List.any_eq_true.2 ⟨'.', by rw [String.data_append]; simp, by simp⟩
  rw [hc]
  rfl

/-! ### The modelled range of double arithmetic

`JSNum` has no overflow, so an invariant over all reachable states can
only be claimed of the program on runs whose values stay well inside
the finite range of IEEE doubles.  The guard below is conservative:
magnitudes strictly below `2 ^ 1023` (half the `2 ^ 1024` overflow
threshold) leave ample margin for the rounding differences between
exact rationals and double arithmetic, and a display admitted by the
guard also parses finite under JS `parseFloat` (no 309-digit operands). -/

/-- The value is NaN or has magnitude strictly below `2 ^ 1023`
(stated on the numerator and denominator: `|q| < 2 ^ 1023` is exactly
`q.num.natAbs < 2 ^ 1023 * q.den`). -/
def inDoubleRange : JSNum → Bool
  | .num q => decide (q.num.natAbs < Nat.pow 2 1023 * q.den)
  | .nan => true

/-- Both numeric cells of a state are inside the modelled range. -/
def stateInRange (s : CalcState) : Bool :=
  inDoubleRange (parseFloat s.display) &&
    (match s.previousValue with
     | some pv => inDoubleRange pv
     | none => true)

/-- Every state along a run from `s` is inside the modelled range. -/
def boundedSteps : CalcState → List Event → Bool
  | s, [] => stateInRange s
  | s, e :: es => stateInRange s && boundedSteps (step s e) es

/-- Every state along a run from the initial state is inside the
modelled range: on such runs the program's double arithmetic neither
overflows nor prints an `Infinity`-family display. -/
def runInRange (es : List Event) : Bool := boundedSteps initState es

/-! ### The claims -/

/-- C1, counterexample: the claimed invariant "`display` parses to a
finite number or equals the error marker" fails on the code.  After the
presses 9, ÷, 0, ÷ the pending division by zero is resolved by the
operator press, which shows `String(NaN) = "NaN"`: a reachable display
that neither parses to a finite number nor equals `"錯誤"`. -/
theorem C1_counterexample :
    (run [.digit 9, .op .div, .digit 0, .op .div]).display = "NaN" ∧
    ¬((parseFloat (run [.digit 9, .op .div, .digit 0, .op .div]).display).isFinite = true ∨
      (run [.digit 9, .op .div, .digit 0, .op .div]).display = "錯誤") := by
  decide

/-- C1 (amended): for every run during which the parsed display and the
stored previous value stay inside the modelled double range, the
resulting `display` either parses to a finite number or is one of the
four failure displays `"錯誤"`, `"-錯誤"`, `"NaN"`, `"-NaN"` (the error
marker and the NaN numeral, each possibly carrying a minus added by
sign toggling).  The range hypothesis scopes the statement to where the
exact-rational model is faithful: runs that overflow the double range
make the program show the `Infinity` family of displays, which lie
outside this list and outside the model; inside the range the model
satisfies the invariant outright. -/
theorem C1_display_invariant_amended (es : List Event)
    (_h : runInRange es = true) :
    (parseFloat (run es).display).isFinite = true ∨ (run es).display ∈ errDisplays := by
  rcases (inv_run es).1 with hn | herr
  · exact Or.inl (parseFloat_isNumStr_finite hn)
  · exact Or.inr herr

set_option maxRecDepth 40000 in
/-- Witness for C1's amendment: the divide-by-zero run 9, ÷, 0, = stays
inside the modelled range and ends on a listed failure display. -/
theorem C1_witness :
    runInRange [.digit 9, .op .div, .digit 0, .equals] = true ∧
    ((parseFloat (run [.digit 9, .op .div, .digit 0, .equals]).display).isFinite = true ∨
      (run [.digit 9, .op .div, .digit 0, .equals]).display ∈ errDisplays) :=
  ⟨by decide, C1_display_invariant_amended _ (by decide)⟩

/-- C2: in every state whose `previousValue` is present, whose pending
operation is divide and whose display parses to 0, the Equals event
shows the error marker, clears `previousValue` and the operation and
sets `waitingForNewValue`; and `calculate a 0 ÷` is NaN for every `a`
(the model is total, so nothing can be thrown). -/
theorem C2_divide_by_zero_equals :
    (∀ s : CalcState, ∀ pv : JSNum, s.previousValue = some pv →
      s.operation = some Op.div → parseFloat s.display = JSNum.num 0 →
      step s .equals = { display := "錯誤"
                         previousValue := none
                         operation := none
                         waitingForNewValue := true }) ∧
    (∀ a : JSNum, calculate a (JSNum.num 0) (some Op.div) = JSNum.nan) := by
  constructor
  · intro s pv hpv hop hd
    have hstep : step s .equals = handleEquals s := rfl
    rw [hstep, handleEquals_some hpv hop, hd, calculate_num0_div]
    rw [if_pos (show JSNum.nan.isNaN = true from rfl)]
  · exact calculate_num0_div

/-- Witness for C2 at the concrete state `(display "0", previous 9,
pending ÷, waiting)`. -/
theorem C2_witness :
    step { display := "0"
           previousValue := some (JSNum.num 9)
           operation := some Op.div
           waitingForNewValue := true } .equals =
      { display := "錯誤"
        previousValue := none
        operation := none
        waitingForNewValue := true } ∧
    calculate (JSNum.num 5) (JSNum.num 0) (some Op.div) = JSNum.nan :=
  ⟨C2_divide_by_zero_equals.1 _ _ rfl rfl (by decide),
   C2_divide_by_zero_equals.2 _⟩

/-- C4: the Operator(op) event stores the parsed display when no
previous value exists, otherwise resolves the pending operation into the
display and the previous value, and always sets `waitingForNewValue` and
the pending operation; pressing + three times after typing 2 therefore
escalates 2, 4, 8. -/
theorem C4_operator_press :
    (∀ s : CalcState, ∀ op : Op,
      (s.previousValue = none →
        step s (.op op) = { s with
                            previousValue := some (parseFloat s.display)
                            waitingForNewValue := true
                            operation := some op }) ∧
      (∀ pv : JSNum, ∀ o : Op, s.previousValue = some pv → s.operation = some o →
        step s (.op op) =
          { s with
            display := stringify (calculate pv (parseFloat s.display) (some o))
            previousValue := some (calculate pv (parseFloat s.display) (some o))
            waitingForNewValue := true
            operation := some op }) ∧
      ((step s (.op op)).waitingForNewValue = true ∧ (step s (.op op)).operation = some op)) ∧
    (run [.digit 2, .op .add, .op .add, .op .add]).display = "8" := by
  constructor
  · intro s op
    refine ⟨fun hpv => handleOperationPress_none hpv op,
            fun pv o hpv hop => handleOperationPress_some hpv hop op, ?_⟩
    have hstep : step s (.op op) = handleOperationPress op s := rfl
    cases hpv : s.previousValue with
    | none =>
        rw [hstep, handleOperationPress_none hpv]
        exact ⟨rfl, rfl⟩
    | some pv =>
        cases hop : s.operation with
        | some o =>
            rw [hstep, handleOperationPress_some hpv hop]
            exact ⟨rfl, rfl⟩
        | none =>
            rw [hstep, handleOperationPress_skip hpv hop]
            exact ⟨rfl, rfl⟩
  · decide

/-- Witness for C4: a first operator press on the initial state stores
the parsed display, and a second press resolves the pending addition. -/
theorem C4_witness :
    step initState (.op Op.add) =
      { initState with
        previousValue := some (parseFloat "0")
        waitingForNewValue := true
        operation := some Op.add } ∧
    step { display := "3"
           previousValue := some (JSNum.num 5)
           operation := some Op.add
           waitingForNewValue := false } (.op Op.add) =
      { display := stringify (calculate (JSNum.num 5) (parseFloat "3") (some Op.add))
        previousValue := some (calculate (JSNum.num 5) (parseFloat "3") (some Op.add))
        operation := some Op.add
        waitingForNewValue := true } :=
  ⟨((C4_operator_press.1 initState Op.add).1 rfl),
   ((C4_operator_press.1 _ Op.add).2.1 _ _ rfl rfl)⟩

/-- C5: a digit press replaces the display and clears the flag when an
operand is awaited, replaces a bare "0", and appends otherwise; hence a
digit sequence typed into a non-awaiting display is concatenated
verbatim, with leading zeros collapsing on a "0" display. -/
theorem C5_digit_press :
    (∀ s : CalcState, ∀ d : Fin 10,
      (s.waitingForNewValue = true →
        step s (.digit d) = { s with display := digitStr d, waitingForNewValue := false }) ∧
      (s.waitingForNewValue = false → s.display = "0" →
        step s (.digit d) = { s with display := digitStr d }) ∧
      (s.waitingForNewValue = false → s.display ≠ "0" →
        step s (.digit d) = { s with display := s.display ++ digitStr d })) ∧
    (∀ s : CalcState, ∀ ds : List (Fin 10), s.waitingForNewValue = false →
      s.display ≠ "0" → s.display.data ≠ [] →
      (List.foldl step s (ds.map Event.digit)).display =
        s.display ++ ⟨ds.map fun d => digitChar d.1⟩) ∧
    (∀ s : CalcState, ∀ ds : List (Fin 10), s.waitingForNewValue = false →
      s.display = "0" →
      (List.foldl step s (ds.map Event.digit)).display =
        if ds.dropWhile (fun d => d = 0) = [] then "0"
        else ⟨(ds.dropWhile (fun d => d = 0)).map fun d => digitChar d.1⟩) :=
  ⟨fun _ _ => ⟨fun hw => handleNumberPress_waiting hw _,
    fun hw h0 => handleNumberPress_zero hw h0 _,
    fun hw h0 => handleNumberPress_append hw h0 _⟩,
   fun _ ds hw h0 hne => digits_fold_append hw h0 hne ds,
   fun _ ds hw h0 => digits_fold_zero hw h0 ds⟩

/-- Witness for C5: typing 1, 2 after the digit 7 appends, giving
"712"; typing 0, 0, 5 on the initial "0" display gives "5". -/
theorem C5_witness :
    (List.foldl step { display := "7"
                       previousValue := none
                       operation := none
                       waitingForNewValue := false } ([1, 2].map Event.digit)).display =
      "7" ++ ⟨[(1 : Fin 10), 2].map fun d => digitChar d.1⟩ ∧
    (List.foldl step initState ([0, 0, 5].map Event.digit)).display =
      if ([(0 : Fin 10), 0, 5].dropWhile (fun d => d = 0)) = [] then "0"
      else ⟨(([(0 : Fin 10), 0, 5]).dropWhile (fun d => d = 0)).map fun d => digitChar d.1⟩ :=
  ⟨C5_digit_press.2.1 _ [1, 2] rfl (by decide) (by decide),
   C5_digit_press.2.2 _ [0, 0, 5] rfl rfl⟩

/-- C6: with both a previous value and a pending operation present and a
numeric result, Equals shows the stringified result, clears both and
sets `waitingForNewValue`; with either absent, Equals is a no-op; and
5, +, 3, = shows "8". -/
theorem C6_equals_press :
    (∀ s : CalcState, ∀ pv : JSNum, ∀ o : Op, ∀ q : ℚ,
      s.previousValue = some pv → s.operation = some o →
      calculate pv (parseFloat s.display) (some o) = JSNum.num q →
      step s .equals = { display := stringify (JSNum.num q)
                         previousValue := none
                         operation := none
                         waitingForNewValue := true }) ∧
    (∀ s : CalcState, s.previousValue = none ∨ s.operation = none → step s .equals = s) ∧
    (run [.digit 5, .op .add, .digit 3, .equals]).display = "8" := by
  refine ⟨?_, fun s h => handleEquals_noop h, by decide⟩
  intro s pv o q hpv hop hres
  have hstep : step s .equals = handleEquals s := rfl
  rw [hstep, handleEquals_some hpv hop, hres]
  rw [if_neg (by simp [JSNum.isNaN])]

/-- Witness for C6: equals on `(display "3", previous 5, pending +)`
shows `String(8)`, and equals on the initial state is a no-op. -/
theorem C6_witness :
    step { display := "3"
           previousValue := some (JSNum.num 5)
           operation := some Op.add
           waitingForNewValue := false } .equals =
      { display := stringify (JSNum.num 8)
        previousValue := none
        operation := none
        waitingForNewValue := true } ∧
    step initState .equals = initState :=
  ⟨C6_equals_press.1 _ _ _ _ rfl rfl (by decide),
   C6_equals_press.2.1 initState (Or.inl rfl)⟩

/-- C3, counterexample: the claim that every event other than Clear
leaves an error-marker display unchanged fails on the code.  After
9, ÷, 0, = the display is `"錯誤"`, yet a digit press replaces it with
"5", a finite-parsing display, without any Clear. -/
theorem C3_counterexample :
    (run [.digit 9, .op .div, .digit 0, .equals]).display = "錯誤" ∧
    (step (run [.digit 9, .op .div, .digit 0, .equals]) (.digit 5)).display = "5" ∧
    (("5" : String) ≠ "錯誤" ∧ (parseFloat "5").isFinite = true) := by
  decide

/-- C3 (amended): from a state showing the error marker (such states
always await an operand), Clear, any digit, and Decimal each replace the
display with a finite-parsing one, while Operator, Equals, ToggleSign
and Percent never do: equals keeps `"錯誤"`, toggling shows `"-錯誤"`,
percent shows `"NaN"`, and an operator press leaves the display
non-finite. -/
theorem C3_error_recovery_amended (s : CalcState) (hd : s.display = "錯誤")
    (hw : s.waitingForNewValue = true) :
    ((step s .clear).display = "0" ∧ (parseFloat (step s .clear).display).isFinite = true) ∧
    (∀ d : Fin 10, (step s (.digit d)).display = digitStr d ∧
      (parseFloat (step s (.digit d)).display).isFinite = true) ∧
    ((step s .decimal).display = "0." ∧
      (parseFloat (step s .decimal).display).isFinite = true) ∧
    (∀ o : Op, (parseFloat (step s (.op o)).display).isFinite = false) ∧
    ((step s .equals).display = "錯誤") ∧
    ((step s .toggleSign).display = "-錯誤") ∧
    ((step s .percent).display = "NaN") := by
  refine ⟨⟨rfl, by show (parseFloat "0").isFinite = true; decide⟩, ?_, ?_, ?_, ?_, ?_, ?_⟩
  · intro d
    have h1 : step s (.digit d) = handleNumberPress (digitStr d) s := rfl
    rw [h1, handleNumberPress_waiting hw]
    exact ⟨rfl, parseFloat_digitStr_finite d⟩
  · have h1 : step s .decimal = handleDecimalPress s := rfl
    have h2 : handleDecimalPress s =
        { s with display := "0.", waitingForNewValue := false } := by
      unfold handleDecimalPress
      rw [if_pos hw]
    rw [h1, h2]
    exact ⟨rfl, by show (parseFloat "0.").isFinite = true; decide⟩
  · intro o
    have h1 : step s (.op o) = handleOperationPress o s := rfl
    cases hpv : s.previousValue with
    | none =>
        rw [h1, handleOperationPress_none hpv]
        show (parseFloat s.display).isFinite = false
        rw [hd]
        decide
    | some pv =>
        cases hop : s.operation with
        | some o' =>
            rw [h1, handleOperationPress_some hpv hop]
            show (parseFloat
              (stringify (calculate pv (parseFloat s.display) (some o')))).isFinite = false
            rw [hd, (by decide : parseFloat "錯誤" = JSNum.nan), calculate_nan_second]
            decide
        | none =>
            rw [h1, handleOperationPress_skip hpv hop]
            show (parseFloat s.display).isFinite = false
            rw [hd]
            decide
  · have h1 : step s .equals = handleEquals s := rfl
    cases hpv : s.previousValue with
    | none => rw [h1, handleEquals_noop (Or.inl hpv)]; exact hd
    | some pv =>
        cases hop : s.operation with
        | none => rw [h1, handleEquals_noop (Or.inr hop)]; exact hd
        | some o =>
            rw [h1, handleEquals_some hpv hop, hd,
              (by decide : parseFloat "錯誤" = JSNum.nan), calculate_nan_second]
            rw [if_pos (show JSNum.nan.isNaN = true from rfl)]
  · rw [show step s .toggleSign = handleToggleSign s from rfl, handleToggleSign_eq]
    show toggleStr s.display = "-錯誤"
    rw [hd]
    decide
  · rw [show step s .percent = handlePercentage s from rfl]
    show stringify (JSNum.div (parseFloat s.display) (JSNum.num 100)) = "NaN"
    rw [hd]
    decide

/-- Witness for C3's amendment at the concrete error state: a digit
press recovers a finite display without Clear. -/
theorem C3_witness :
    (step { display := "錯誤"
            previousValue := none
            operation := none
            waitingForNewValue := true } (.digit 5)).display = digitStr 5 ∧
    (parseFloat (step { display := "錯誤"
                        previousValue := none
                        operation := none
                        waitingForNewValue := true } (.digit 5)).display).isFinite = true :=
  (C3_error_recovery_amended _ rfl rfl).2.1 5

/-- C7: every reachable display holds at most one decimal point, and the
Decimal event is idempotent on every state, so a second press with no
intervening reset is a no-op. -/
theorem C7_single_decimal_point :
    (∀ es : List Event, ((run es).display.data.count '.') ≤ 1) ∧
    (∀ s : CalcState, step (step s .decimal) .decimal = step s .decimal) := by
  constructor
  · intro es
    rcases (inv_run es).1 with hn | herr
    · rcases hn with hb | ⟨l, hl, hb, -⟩
      · exact isBody_count_dot hb
      · rw [hl]
        have hcnt : ('-' :: l).count '.' = l.count '.' := by
          rw [List.count_cons]
          simp
        rw [hcnt]
        exact isBody_count_dot hb
    · rcases err_mem_iff.1 herr with h | h | h | h <;> rw [h] <;> decide
  · intro s
    show handleDecimalPress (handleDecimalPress s) = handleDecimalPress s
    cases hw : s.waitingForNewValue with
    | true =>
        have e1 : handleDecimalPress s =
            { s with display := "0.", waitingForNewValue := false } := by
          unfold handleDecimalPress
          rw [if_pos hw]
        rw [e1]
        unfold handleDecimalPress
        rw [if_neg (by simp), if_neg (by show ¬hasNoDot "0." = true; decide)]
    | false =>
        by_cases hnd : hasNoDot s.display = true
        · have e1 : handleDecimalPress s = { s with display := s.display ++ "." } := by
            unfold handleDecimalPress
            rw [if_neg (by simp [hw]), if_pos hnd]
          rw [e1]
          unfold handleDecimalPress
          rw [if_neg (by simp [hw]), if_neg (by simp [hasNoDot_append_dot])]
        · have e1 : handleDecimalPress s = s := by
            unfold handleDecimalPress
            rw [if_neg (by simp [hw]), if_neg hnd]
          rw [e1, e1]

/-- C8: the display formatter returns the error marker unchanged,
renders "0" when the input parses to NaN, uses scientific notation with
six fraction digits from absolute value 10^15 on, and otherwise renders
the minimal decimal text of the parsed number. -/
theorem C8_formatDisplay_spec :
    (formatDisplay "錯誤" = "錯誤") ∧
    (∀ v : String, v ≠ "錯誤" → parseFloat v = JSNum.nan → formatDisplay v = "0") ∧
    (∀ v : String, ∀ q : ℚ, v ≠ "錯誤" → parseFloat v = JSNum.num q →
      (10 : ℚ) ^ 15 ≤ |q| → formatDisplay v = toExponential6 q) ∧
    (∀ v : String, ∀ q : ℚ, v ≠ "錯誤" → parseFloat v = JSNum.num q →
      |q| < (10 : ℚ) ^ 15 → formatDisplay v = stringify (JSNum.num q)) := by
  refine ⟨rfl, ?_, ?_, ?_⟩
  · intro v hv hp
    unfold formatDisplay
    rw [if_neg hv, hp]
  · intro v q hv hp hq
    unfold formatDisplay
    rw [if_neg hv, hp]
    show (if (10 : ℚ) ^ 15 ≤ |q| then toExponential6 q else stringify (JSNum.num q)) =
      toExponential6 q
    rw [if_pos hq]
  · intro v q hv hp hq
    unfold formatDisplay
    rw [if_neg hv, hp]
    show (if (10 : ℚ) ^ 15 ≤ |q| then toExponential6 q else stringify (JSNum.num q)) =
      stringify (JSNum.num q)
    rw [if_neg (not_le.2 hq)]

/-- Witness for C8 on all three guarded branches. -/
theorem C8_witness :
    formatDisplay "abc" = "0" ∧
    formatDisplay "2000000000000000" = toExponential6 2000000000000000 ∧
    formatDisplay "42" = stringify (JSNum.num 42) :=
  ⟨C8_formatDisplay_spec.2.1 "abc" (by decide) (by decide),
   C8_formatDisplay_spec.2.2.1 "2000000000000000" 2000000000000000 (by decide) (by decide)
     (by decide),
   C8_formatDisplay_spec.2.2.2 "42" 42 (by decide) (by decide) (by decide)⟩

/-- C9, counterexample: on the code as written, toggling the sign twice
does not always return the original display.  At the (unreachable)
display "-0" the first toggle strips the minus and the second is blocked
by the `display !== '0'` guard, leaving "0". -/
theorem C9_counterexample :
    (step (step { display := "-0"
                  previousValue := none
                  operation := none
                  waitingForNewValue := false } .toggleSign) .toggleSign).display = "0" ∧
    ("0" : String) ≠ "-0" := by
  decide

/-- C9 (amended): ToggleSign leaves a "0" display unchanged, strips a
leading minus and prepends one otherwise, purely by string manipulation;
toggling twice restores the state on every reachable state (whose
displays carry a minus only as first character, with signed body never
the bare "0"). -/
theorem C9_toggle_amended :
    (∀ s : CalcState,
      (s.display = "0" → step s .toggleSign = s) ∧
      (s.display ≠ "0" → startsWithMinus s.display = true →
        step s .toggleSign = { s with display := sliceFrom1 s.display }) ∧
      (s.display ≠ "0" → startsWithMinus s.display = false →
        step s .toggleSign = { s with display := "-" ++ s.display })) ∧
    (∀ es : List Event, step (step (run es) .toggleSign) .toggleSign = run es) := by
  constructor
  · intro s
    refine ⟨?_, ?_, ?_⟩
    · intro h0
      show handleToggleSign s = s
      unfold handleToggleSign
      rw [if_neg (not_not_intro h0)]
    · intro h0 hsw
      show handleToggleSign s = _
      unfold handleToggleSign
      rw [if_pos h0, hsw, if_pos rfl]
    · intro h0 hsw
      show handleToggleSign s = _
      unfold handleToggleSign
      rw [if_pos h0, hsw, if_neg (by simp)]
  · intro es
    exact toggle_toggle_state (inv_run es).1

/-- Witness for C9's amendment: pressing 7 and toggling twice yields the
state after pressing 7, with display "7". -/
theorem C9_witness :
    step (step (run [.digit 7]) .toggleSign) .toggleSign = run [.digit 7] ∧
    (run [.digit 7]).display = "7" :=
  ⟨C9_toggle_amended.2 [.digit 7], by decide⟩

/-- C10: a pending division whose second operand parses to 0, resolved
by an Operator press rather than Equals, shows `String(NaN) = "NaN"` and
stores NaN as the previous value; the error marker is never produced by
an Operator press. -/
theorem C10_operator_div_zero :
    (∀ s : CalcState, ∀ pv : JSNum, ∀ op : Op,
      s.previousValue = some pv → s.operation = some Op.div →
      parseFloat s.display = JSNum.num 0 →
      step s (.op op) = { s with
                          display := "NaN"
                          previousValue := some JSNum.nan
                          waitingForNewValue := true
                          operation := some op }) ∧
    (∀ s : CalcState, ∀ op : Op, s.display ≠ "錯誤" →
      (step s (.op op)).display ≠ "錯誤") := by
  constructor
  · intro s pv op hpv hop hd
    have hstep : step s (.op op) = handleOperationPress op s := rfl
    rw [hstep, handleOperationPress_some hpv hop, hd, calculate_num0_div]
    rfl
  · intro s op hne
    have hstep : step s (.op op) = handleOperationPress op s := rfl
    cases hpv : s.previousValue with
    | none =>
        rw [hstep, handleOperationPress_none hpv]
        exact hne
    | some pv =>
        cases hop : s.operation with
        | some o =>
            rw [hstep, handleOperationPress_some hpv hop]
            exact stringify_ne_err _
        | none =>
            rw [hstep, handleOperationPress_skip hpv hop]
            exact hne

/-- Witness for C10 at the state reached by 9, ÷, 0 and an operator
press, and for the never-the-error-marker part at the initial state. -/
theorem C10_witness :
    step { display := "0"
           previousValue := some (JSNum.num 9)
           operation := some Op.div
           waitingForNewValue := false } (.op Op.mul) =
      { display := "NaN"
        previousValue := some JSNum.nan
        operation := some Op.mul
        waitingForNewValue := true } ∧
    (step initState (.op Op.add)).display ≠ "錯誤" :=
  ⟨C10_operator_div_zero.1 _ _ Op.mul rfl rfl (by decide),
   C10_operator_div_zero.2 initState Op.add (by decide)⟩

end Calc
